import Mathlib

/-!
Verification development for the OpenAPI2MCP repository.

The repository bridges OpenAPI documents and the MCP tool-invocation
protocol: a Tool Extractor turns OpenAPI operations into a catalog of
tools, an MCP server exposes the catalog and dispatches invocations as
HTTP calls, and a Token Manager handles OAuth2 client-credentials tokens.

The example scripts (examples/advanced_usage.py, examples/run_server.py,
examples/client_example.py) are embedded directly.  The core library
modules (openapi_parser, server, auth) are not in the source tree; where
a definition models one of them it is marked `Modelled from the spec:`
and follows the specification text.

Python strings are modelled as Lean strings (or lists of characters
where character-level splitting matters), Python dicts preserving
insertion order as association lists, and JSON values as the inductive
type `Json` below.
-/

/-- JSON values as produced and consumed by the scripts. -/
inductive Json where
  | null : Json
  | bool (b : Bool) : Json
  | num (n : Int) : Json
  | str (s : String) : Json
  | arr (xs : List Json) : Json
  | obj (fields : List (String × Json)) : Json
deriving Repr

/-- Field lookup on a JSON object: the value of the first field with the
given key, or `none` when the value is not an object or lacks the key. -/
def Json.getField : Json → String → Option Json
  | .obj fields, key => (fields.find? (fun f => f.1 == key)).map Prod.snd
  | _, _ => none

/-- Schema fragment of one tool parameter: declared `type`, optional
`enum`, optional `format` (spec section 3, Tool.parameters). -/
structure ParamSchema where
  type : Option String
  enum : Option (List Json)
  format : Option String
deriving Repr

/-- HTTP parameter location of an operation parameter binding
(spec section 3, Tool.operation). -/
inductive ParamLocation where
  | path : ParamLocation
  | query : ParamLocation
  | header : ParamLocation
  | cookie : ParamLocation
  | body : ParamLocation
deriving Repr, DecidableEq

/-- A tool of the catalog: name, optional description, parameter
properties (name to schema, in declaration order), required names, and
the binding back to the HTTP operation (spec section 3). -/
structure Tool where
  name : String
  description : Option String
  properties : List (String × ParamSchema)
  required : List String
  method : String
  pathTemplate : String
  locations : List (String × ParamLocation)
deriving Repr

/-! ## run_mcp_server authentication wiring (examples/advanced_usage.py)

`run_mcp_server` reads API_CLIENT_ID, API_CLIENT_SECRET and
API_TOKEN_URL from the environment into the dict `auth_config`, builds
an `OAuthHandler` only when `all(auth_config.values())` holds, and
passes `auth_config` to `MCPServer` only when the handler was built. -/

/-- Environment as seen by run_mcp_server: the three optional variables.
`none` models an unset variable, `some s` a set one. -/
structure Env where
  apiClientId : Option String
  apiClientSecret : Option String
  apiTokenUrl : Option String

/-- Python truthiness of an `os.environ.get` result: `None` and the
empty string are falsy, any other string truthy. -/
def truthy : Option String → Bool
  | none => false
  | some s => !(s == "")

/-- Whether run_mcp_server creates an OAuthHandler:
the `all(auth_config.values())` test. -/
def authHandlerCreated (e : Env) : Bool :=
  truthy e.apiClientId && truthy e.apiClientSecret && truthy e.apiTokenUrl

/-- The auth configuration run_mcp_server passes to MCPServer:
`auth_config if auth_handler else None`. -/
def serverAuthConfig (e : Env) :
    Option (Option String × Option String × Option String) :=
  if authHandlerCreated e then
    some (e.apiClientId, e.apiClientSecret, e.apiTokenUrl)
  else
    none

/-! ## Spec loading (examples/advanced_usage.py, list_tools_from_spec)

The loader parses the file as YAML when the name ends in `.yaml` or
`.yml`, as JSON otherwise, and feeds the parsed structure to
`OpenAPIParser(spec).extract_tools()`.  The YAML and JSON parsers are
external collaborators and appear as function parameters. -/

/-- Serialization format chosen by list_tools_from_spec for a path. -/
inductive SpecFormat where
  | yaml : SpecFormat
  | json : SpecFormat
deriving Repr

/-- Python str.endswith at the character level: the second string is a
suffix of the first. -/
def pyEndsWith (s suff : String) : Bool :=
  List.isSuffixOf suff.data s.data

/-- Format dispatch of list_tools_from_spec:
`spec_file.endswith(('.yaml', '.yml'))`. -/
def specFormatOf (path : String) : SpecFormat :=
  if pyEndsWith path ".yaml" || pyEndsWith path ".yml" then .yaml else .json

/-- Modelled from the spec: one declared operation parameter
(path, query, header or cookie) with its required flag and schema
fragment (spec section 4.1). -/
structure OpParameter where
  name : String
  loc : ParamLocation
  required : Bool
  schema : ParamSchema
deriving Repr

/-- Modelled from the spec: request-body schema of an operation,
properties in declaration order plus the body-level required names
(spec section 4.1). -/
structure RequestBody where
  properties : List (String × ParamSchema)
  required : List String
deriving Repr

/-- Modelled from the spec: a well-formed OpenAPI operation as exposed
by the Spec Loader (spec sections 3 and 6). -/
structure Operation where
  operationId : Option String
  description : Option String
  parameters : List OpParameter
  requestBody : Option RequestBody
deriving Repr

/-- Modelled from the spec: an entry under a path and method, either a
well-formed operation or a malformed fragment kept verbatim
(spec section 4.1, partial-failure semantics). -/
inductive OpEntry where
  | ok (op : Operation) : OpEntry
  | malformed (fragment : Json) : OpEntry
deriving Repr

/-- Parsed OpenAPI document handed to the Tool Extractor: paths in
declaration order, each with its operations by method in declaration
order, plus the base server URL (spec section 3 and section 6). -/
structure OpenApiDocument where
  paths : List (String × List (String × OpEntry))
  serverUrl : String
deriving Repr

/-- Loading step of list_tools_from_spec: parse with the YAML parser or
the JSON parser according to the file extension. -/
def loadSpec (parseYamlDoc parseJsonDoc : String → OpenApiDocument)
    (path content : String) : OpenApiDocument :=
  match specFormatOf path with
  | .yaml => parseYamlDoc content
  | .json => parseJsonDoc content

/-! ## Tool Extractor (openapi_parser module, absent from the source
tree; modelled from the spec, section 4.1) -/

/-- Modelled from the spec: drop the slash characters of a path template
when synthesizing a tool name (`<method><PathWithoutSlashes>`). -/
def stripSlashes (p : String) : String :=
  String.mk (p.data.filter (fun c => c ≠ '/'))

/-- Modelled from the spec: preferred base name of an operation, the
explicit operation identifier when present, otherwise the synthesized
`<method><PathWithoutSlashes>` name. -/
def baseName (path method : String) (op : Operation) : String :=
  match op.operationId with
  | some i => i
  | none => method ++ stripSlashes path

/-- Modelled from the spec: the `properties` entries of a tool, one per
declared parameter and one per request-body property, in declaration
order (spec section 4.1). -/
def opProperties (op : Operation) : List (String × ParamSchema) :=
  op.parameters.map (fun p => (p.name, p.schema)) ++
    (match op.requestBody with
     | some rb => rb.properties
     | none => [])

/-- Modelled from the spec: the `required` names of a tool, the declared
parameters carrying a required flag followed by the body properties
named in the body-level required list (spec section 4.1). -/
def opRequired (op : Operation) : List String :=
  op.parameters.filterMap (fun p => if p.required then some p.name else none) ++
    (match op.requestBody with
     | some rb => rb.properties.filterMap
         (fun q => if q.1 ∈ rb.required then some q.1 else none)
     | none => [])

/-- Modelled from the spec: the per-parameter location bindings of a
tool (spec section 3, Tool.operation). -/
def opLocations (op : Operation) : List (String × ParamLocation) :=
  op.parameters.map (fun p => (p.name, p.loc)) ++
    (match op.requestBody with
     | some rb => rb.properties.map (fun q => (q.1, ParamLocation.body))
     | none => [])

/-- Modelled from the spec: the tool built for one operation, given its
already-resolved unique name. -/
def buildTool (nm path method : String) (op : Operation) : Tool :=
  { name := nm
    description := op.description
    properties := opProperties op
    required := opRequired op
    method := method
    pathTemplate := path
    locations := opLocations op }

/-- Modelled from the spec: the well-formed operations of a document,
flattened path by path and method by method in declaration order;
malformed fragments are skipped (spec section 4.1). -/
def validOps (d : OpenApiDocument) : List (String × String × Operation) :=
  (d.paths.map (fun pe => pe.2.filterMap (fun me =>
    match me.2 with
    | .ok op => some (pe.1, me.1, op)
    | .malformed _ => none))).flatten

/-- Decimal rendering of a numeric suffix, most significant digit
first. -/
def natSuffix (n : Nat) : String :=
  String.mk (((Nat.digits 10 n).reverse).map Nat.digitChar)

/-- Modelled from the spec: search for the first numeric suffix making
`base` fresh with respect to `used`, where `fuel` bounds the search
(spec section 4.1, deterministic collision handling). -/
def freshSuffix (used : List String) (base : String) : Nat → Nat → String
  | 0, k => base ++ natSuffix k
  | fuel + 1, k =>
    if base ++ natSuffix k ∈ used then freshSuffix used base fuel (k + 1)
    else base ++ natSuffix k

/-- Modelled from the spec: resolved name of an operation, the base name
when not yet taken, otherwise the base with the first free numeric
suffix appended (first-seen wins the unsuffixed name). -/
def freshName (used : List String) (base : String) : String :=
  if base ∈ used then freshSuffix used base used.length 1 else base

/-- Modelled from the spec: assign resolved names left to right,
threading the list of names already used. -/
def assignNames (used : List String) :
    List (String × String × Operation) → List Tool
  | [] => []
  | (path, method, op) :: rest =>
    let nm := freshName used (baseName path method op)
    buildTool nm path method op :: assignNames (nm :: used) rest

/-- Modelled from the spec: extract_tools of OpenAPIParser, producing
the ordered tool catalog of a parsed document (spec section 4.1). -/
def extract_tools (d : OpenApiDocument) : List Tool :=
  assignNames [] (validOps d)

/-- The whole of list_tools_from_spec (examples/advanced_usage.py):
load the file according to its extension, then extract the tools. -/
def list_tools_from_spec
    (parseYamlDoc parseJsonDoc : String → OpenApiDocument)
    (path content : String) : List Tool :=
  extract_tools (loadSpec parseYamlDoc parseJsonDoc path content)

/-! ## Catalog serialization (spec section 6; export_tools_to_json in
examples/advanced_usage.py writes it, examples/client_example.py reads
it back) -/

/-- Modelled from the spec: JSON form of one parameter schema fragment,
keeping the declared type, enum and format when present
(spec section 4.1). -/
def ParamSchema.toJson (p : ParamSchema) : Json :=
  .obj ((match p.type with
         | some t => [("type", Json.str t)]
         | none => []) ++
        (match p.enum with
         | some es => [("enum", Json.arr es)]
         | none => []) ++
        (match p.format with
         | some f => [("format", Json.str f)]
         | none => []))

/-- Modelled from the spec: catalog JSON form of one tool,
`\x7bname, description, parameters: \x7btype, properties, required\x7d\x7d`
(spec section 6); the description field is present only when the tool
has one. -/
def Tool.toJson (t : Tool) : Json :=
  .obj ([("name", Json.str t.name)] ++
        (match t.description with
         | some d => [("description", Json.str d)]
         | none => []) ++
        [("parameters", Json.obj
          [("type", Json.str "object"),
           ("properties", Json.obj (t.properties.map (fun q => (q.1, q.2.toJson)))),
           ("required", Json.arr (t.required.map Json.str))])])

/-- The JSON document export_tools_to_json writes: a single top-level
key `tools` holding the serialized tool list
(`json.dump(\x7b"tools": tools\x7d, f)`). -/
def catalogToJson (tools : List Tool) : Json :=
  .obj [("tools", .arr (tools.map Tool.toJson))]

/-- Client-side read-back of the `tools` key (client_example.py,
`response.json()["tools"]`). -/
def readToolsField (j : Json) : Option (List Json) :=
  match j.getField "tools" with
  | some (.arr xs) => some xs
  | _ => none

/-- Name read back from a serialized tool. -/
def readName (j : Json) : Option String :=
  match j.getField "name" with
  | some (.str s) => some s
  | _ => none

/-- Required list read back from a serialized tool. -/
def readRequired (j : Json) : Option (List Json) :=
  match j.getField "parameters" with
  | some p =>
    match p.getField "required" with
    | some (.arr xs) => some xs
    | _ => none
  | none => none

/-- Property keys read back from a serialized tool, in order. -/
def readPropertyKeys (j : Json) : Option (List String) :=
  match j.getField "parameters" with
  | some p =>
    match p.getField "properties" with
    | some (.obj fs) => some (fs.map Prod.fst)
    | _ => none
  | none => none

/-! ## Summary display

run_server.py, advanced_usage.py and client_example.py all print
`tool.get('description', '').split('\n')[0]` as the tool summary. -/

/-- Python str.split with a one-character separator on a list of
characters: the result always has at least one piece. -/
def pySplit (sep : Char) : List Char → List (List Char)
  | [] => [[]]
  | c :: cs =>
    if c = sep then [] :: pySplit sep cs
    else
      match pySplit sep cs with
      | [] => [[c]]
      | piece :: rest => (c :: piece) :: rest

/-- Summary shown by the example scripts for a tool description: first
piece of the newline split of `tool.get('description', '')`. -/
def summaryLine (descr : Option String) : List Char :=
  (pySplit '\n' (descr.getD "").data).headD []

/-! ## Example parameter generation

run_mcp_server (examples/advanced_usage.py) builds sample parameters
for the first tool from its `parameters.properties`. -/

/-- Outcome of one iteration of the sample-parameter loop: a sample
value, nothing (property skipped), or a crash (IndexError raised by
`param_schema["enum"][0]` on an empty enum list). -/
inductive GenStep where
  | value (v : Json) : GenStep
  | skip : GenStep
  | indexError : GenStep
deriving Repr

/-- One iteration of run_mcp_server's sample-parameter loop, following
the if/elif chain of the source. -/
def genParam (name : String) (p : ParamSchema) : GenStep :=
  if p.type = some "string" then
    match p.enum with
    | some [] => .indexError
    | some (v :: _) => .value v
    | none => .value (.str ("sample_" ++ name))
  else if p.type = some "integer" then .value (.num 10)
  else if p.type = some "boolean" then .value (.bool true)
  else .skip

/-- The sample-parameter loop of run_mcp_server over a tool's
properties in iteration order; `none` models the IndexError crash. -/
def generateParameters :
    List (String × ParamSchema) → Option (List (String × Json))
  | [] => some []
  | q :: rest =>
    match genParam q.1 q.2 with
    | .indexError => none
    | .skip => generateParameters rest
    | .value v => (generateParameters rest).map (fun m => (q.1, v) :: m)

/-- Stated from the claim: the property types said to receive a sample
value ("string", "integer" or "boolean"). -/
def isSampledType (p : ParamSchema) : Bool :=
  p.type == some "string" || p.type == some "integer" || p.type == some "boolean"

/-- Stated from the claim: the promised sample value — first enum
element for a string with a non-empty enum, `sample_<name>` for other
strings, 10 for integers, true for booleans. -/
def claimSample (name : String) (p : ParamSchema) : Json :=
  if p.type = some "string" then
    match p.enum with
    | some (v :: _) => v
    | _ => .str ("sample_" ++ name)
  else if p.type = some "integer" then .num 10
  else .bool true

/-! ## Tool Dispatcher (server module, absent from the source tree;
modelled from the spec, sections 4.3 and 7) -/

/-- Modelled from the spec: the backend HTTP request the dispatcher
builds before issuing it (spec section 4.3). -/
structure HttpRequest where
  method : String
  url : String
  query : List (String × Json)
  headers : List (String × Json)
  cookies : List (String × Json)
  body : List (String × Json)
deriving Repr

/-- Modelled from the spec: outcome of the dispatch step before any
network activity — a validation failure carries no request, a backend
call carries the request that would be issued (spec section 4.3). -/
inductive DispatchOutcome where
  | validationError (message : String) : DispatchOutcome
  | backendCall (req : HttpRequest) : DispatchOutcome
deriving Repr

/-- Modelled from the spec: the required names absent from the
invocation parameters (spec section 4.3). -/
def missingRequired (t : Tool) (args : List (String × Json)) : List String :=
  t.required.filter (fun r => !(args.any (fun a => a.1 == r)))

/-- Modelled from the spec: the invocation parameter names not among the
tool's declared properties (spec section 4.3). -/
def unknownNames (t : Tool) (args : List (String × Json)) : List String :=
  (args.map Prod.fst).filter (fun n => !(t.properties.any (fun q => q.1 == n)))

/-- Modelled from the spec: the arguments bound to one parameter
location according to the tool's operation binding (spec section 4.3). -/
def argsAt (t : Tool) (args : List (String × Json)) (loc : ParamLocation) :
    List (String × Json) :=
  args.filter (fun a =>
    decide (((t.locations.find? (fun q => q.1 == a.1)).map Prod.snd) = some loc))

/-- Modelled from the spec: build the backend request by binding each
parameter to its declared location; path parameters substitute into the
path template, the rest attach to query, headers, cookies or the JSON
body (spec section 4.3; the URL-level substitution stays abstract at
the granularity the claims need). -/
def buildRequest (baseUrl : String) (t : Tool) (args : List (String × Json)) :
    HttpRequest :=
  { method := t.method
    url := baseUrl ++ t.pathTemplate
    query := argsAt t args ParamLocation.query
    headers := argsAt t args ParamLocation.header
    cookies := argsAt t args ParamLocation.cookie
    body := argsAt t args ParamLocation.body }

/-- Modelled from the spec: invoke of the Tool Dispatcher up to the
point of issuing the backend call — validate the parameter mapping,
then bind parameters and build the request (spec section 4.3). -/
def invoke (baseUrl : String) (t : Tool) (args : List (String × Json)) :
    DispatchOutcome :=
  match missingRequired t args with
  | r :: _ => .validationError ("Missing required parameter: " ++ r)
  | [] =>
    match unknownNames t args with
    | n :: _ => .validationError ("Unknown parameter: " ++ n)
    | [] => .backendCall (buildRequest baseUrl t args)

/-! ## MCP Front Door (server module, absent from the source tree;
modelled from the spec, section 4.4) -/

/-- Modelled from the spec: response framing of POST /mcp/run — an
unknown tool name yields NotFoundError and nothing is dispatched
(spec section 4.4). -/
inductive RunResponse where
  | notFoundError (name : String) : RunResponse
  | dispatched (outcome : DispatchOutcome) : RunResponse
deriving Repr

/-- Modelled from the spec: the front door resolves the named tool in
the active catalog and delegates to the dispatcher (spec section 4.4). -/
def handleRun (baseUrl : String) (catalog : List Tool) (name : String)
    (args : List (String × Json)) : RunResponse :=
  match catalog.find? (fun t => t.name == name) with
  | none => .notFoundError name
  | some t => .dispatched (invoke baseUrl t args)

/-! ## Token Manager (auth module, absent from the source tree;
modelled from the spec, sections 4.2, 5 and 9)

Concurrent `get_token()` callers are modelled as an interleaving
transition system: each caller is idle, waiting on the in-flight
refresh, or done; outbound token requests are counted and identified by
issue order. -/

/-- Phase of one get_token caller. -/
inductive CallerPhase where
  | idle : CallerPhase
  | waiting : CallerPhase
  | done : CallerPhase
deriving Repr, DecidableEq

/-- Modelled from the spec: shared state of the Token Manager plus the
phases of `n` concurrent get_token callers.  `requests` counts outbound
token requests; `cached` holds the id of the request that produced the
cached token; `result` records the request id each finished caller
received its token from. -/
structure TMState (n : Nat) where
  valid : Bool
  inFlight : Bool
  requests : Nat
  cached : Option Nat
  phase : Fin n → CallerPhase
  result : Fin n → Option Nat

/-- Modelled from the spec: the atomic steps of the Token Manager under
the single-flight discipline (spec sections 4.2 and 9).  A caller
hitting a valid cache returns it; a caller finding no valid cache and
no in-flight refresh issues the one refresh request; a caller arriving
during a refresh joins the waiters; the refresh completing installs the
token and hands it to every waiter. -/
inductive TMStep (n : Nat) : TMState n → TMState n → Prop
  | hit (s : TMState n) (i : Fin n) (g : Nat) :
      s.phase i = .idle → s.valid = true → s.cached = some g →
      TMStep n s { s with
        phase := Function.update s.phase i .done
        result := Function.update s.result i (some g) }
  | start (s : TMState n) (i : Fin n) :
      s.phase i = .idle → s.valid = false → s.inFlight = false →
      TMStep n s { s with
        inFlight := true
        requests := s.requests + 1
        phase := Function.update s.phase i .waiting }
  | join (s : TMState n) (i : Fin n) :
      s.phase i = .idle → s.valid = false → s.inFlight = true →
      TMStep n s { s with phase := Function.update s.phase i .waiting }
  | finish (s : TMState n) :
      s.inFlight = true →
      TMStep n s { s with
        inFlight := false
        valid := true
        cached := some (s.requests - 1)
        phase := fun j => if s.phase j = .waiting then .done else s.phase j
        result := fun j =>
          if s.phase j = .waiting then some (s.requests - 1) else s.result j }

/-- Initial state of one refresh episode: the cached token is past the
safety margin (no valid cache), no refresh in flight, no requests
issued, all callers idle. -/
def TMInit (n : Nat) : TMState n :=
  { valid := false
    inFlight := false
    requests := 0
    cached := none
    phase := fun _ => .idle
    result := fun _ => none }

/-- States reachable from the initial state by interleaved caller
steps. -/
inductive TMReachable (n : Nat) : TMState n → Prop
  | init : TMReachable n (TMInit n)
  | step {s t : TMState n} :
      TMReachable n s → TMStep n s t → TMReachable n t

/-- Helper for the sample-parameter loop: a string property carrying an
empty enum list, the one shape on which the loop raises IndexError. -/
def hasEmptyEnumString (p : ParamSchema) : Bool :=
  (p.type == some "string") &&
    (match p.enum with
     | some [] => true
     | _ => false)

/-! ## Theorems -/

/-- Python truthiness of an optional environment value: truthy exactly
when present and non-empty. -/
lemma truthy_iff (o : Option String) :
    truthy o = true ↔ ∃ a, o = some a ∧ a ≠ "" := by
  cases o with
  | none => simp [truthy]
  | some s => simp [truthy]

/-- C6: run_mcp_server creates an OAuth handler and hands MCPServer an
auth configuration exactly when client id, client secret and token URL
are all present and non-empty; with any of them absent or empty the
handler is not created and the server gets no auth configuration. -/
theorem run_mcp_server_auth_all_or_nothing (e : Env) :
    ((authHandlerCreated e = true ∧
        serverAuthConfig e =
          some (e.apiClientId, e.apiClientSecret, e.apiTokenUrl)) ↔
      ((∃ a, e.apiClientId = some a ∧ a ≠ "") ∧
       (∃ b, e.apiClientSecret = some b ∧ b ≠ "") ∧
       (∃ c, e.apiTokenUrl = some c ∧ c ≠ ""))) ∧
    (authHandlerCreated e = false → serverAuthConfig e = none) := by
  constructor
  · constructor
    · rintro ⟨h, -⟩
      simp only [authHandlerCreated, Bool.and_eq_true, truthy_iff] at h
      exact ⟨h.1.1, h.1.2, h.2⟩
    · rintro ⟨h1, h2, h3⟩
      have hb : authHandlerCreated e = true := by
        simp only [authHandlerCreated, Bool.and_eq_true, truthy_iff]
        exact ⟨⟨h1, h2⟩, h3⟩
      exact ⟨hb, by simp [serverAuthConfig, hb]⟩
  · intro h
    simp [serverAuthConfig, h]

/-- C6 witness: with all three variables set the configuration is
passed through; with the client secret unset it is dropped. -/
theorem run_mcp_server_auth_all_or_nothing_witness :
    serverAuthConfig ⟨some "id", some "sec", some "url"⟩ =
        some (some "id", some "sec", some "url") ∧
    serverAuthConfig ⟨some "id", none, some "url"⟩ = none := by
  constructor
  · exact ((run_mcp_server_auth_all_or_nothing
      ⟨some "id", some "sec", some "url"⟩).1.mpr
      ⟨⟨"id", rfl, by decide⟩, ⟨"sec", rfl, by decide⟩,
       ⟨"url", rfl, by decide⟩⟩).2
  · exact (run_mcp_server_auth_all_or_nothing
      ⟨some "id", none, some "url"⟩).2 (by decide)

/-- C7: the loader parses a file as YAML exactly when its name ends in
.yaml or .yml and as JSON otherwise, hands the parsed document to the
extractor, and therefore the same document serialized as YAML or as
JSON yields the same extracted tool list. -/
theorem list_tools_from_spec_format_agnostic
    (parseYamlDoc parseJsonDoc : String → OpenApiDocument)
    (fy fj cy cj : String)
    (hy : pyEndsWith fy ".yaml" = true ∨ pyEndsWith fy ".yml" = true)
    (hj : pyEndsWith fj ".yaml" = false ∧ pyEndsWith fj ".yml" = false)
    (hsame : parseYamlDoc cy = parseJsonDoc cj) :
    loadSpec parseYamlDoc parseJsonDoc fy cy = parseYamlDoc cy ∧
    loadSpec parseYamlDoc parseJsonDoc fj cj = parseJsonDoc cj ∧
    list_tools_from_spec parseYamlDoc parseJsonDoc fy cy =
      list_tools_from_spec parseYamlDoc parseJsonDoc fj cj := by
  have h1 : specFormatOf fy = .yaml := by
    unfold specFormatOf
    rcases hy with h | h <;> simp [h]
  have h2 : specFormatOf fj = .json := by
    unfold specFormatOf
    simp [hj.1, hj.2]
  refine ⟨?_, ?_, ?_⟩ <;>
    simp [list_tools_from_spec, loadSpec, h1, h2, hsame]

/-- A fixed parsed document used by concrete witnesses. -/
def demoParsedDoc : OpenApiDocument :=
  { paths := [("/users",
      [("get", OpEntry.ok
        { operationId := some "getUsers"
          description := some "List users\nSecond line."
          parameters :=
            [{ name := "limit"
               loc := ParamLocation.query
               required := false
               schema := { type := some "integer", enum := none, format := none } }]
          requestBody := none })])]
    serverUrl := "https://api.example.com" }

/-- C7 witness: a .yaml path and a .json path whose parses agree yield
the same tool list. -/
theorem list_tools_from_spec_format_agnostic_witness :
    list_tools_from_spec (fun _ => demoParsedDoc) (fun _ => demoParsedDoc)
        "api.yaml" "y" =
      list_tools_from_spec (fun _ => demoParsedDoc) (fun _ => demoParsedDoc)
        "api.json" "j" :=
  (list_tools_from_spec_format_agnostic (fun _ => demoParsedDoc)
    (fun _ => demoParsedDoc) "api.yaml" "api.json" "y" "j"
    (Or.inl (by decide)) ⟨by decide, by decide⟩ rfl).2.2

/-- C8: the catalog serializes as a JSON object whose single top-level
key is tools, and reading the tools key back recovers, for each tool,
the same name, required list and property keys. -/
theorem catalog_roundtrip (ts : List Tool) (t : Tool) :
    catalogToJson ts = Json.obj [("tools", Json.arr (ts.map Tool.toJson))] ∧
    readToolsField (catalogToJson ts) = some (ts.map Tool.toJson) ∧
    readName t.toJson = some t.name ∧
    readRequired t.toJson = some (t.required.map Json.str) ∧
    readPropertyKeys t.toJson = some (t.properties.map Prod.fst) := by
  rcases t with ⟨name, descr, props, req, method, pt, locs⟩
  rcases descr with - | d <;>
    · refine ⟨rfl, rfl, rfl, rfl, ?_⟩
      simp [readPropertyKeys, Tool.toJson, Json.getField, List.map_map,
        Function.comp]

/-- Python str.split always yields at least one piece. -/
lemma pySplit_ne_nil (sep : Char) : ∀ l : List Char, pySplit sep l ≠ []
  | [] => by simp [pySplit]
  | c :: cs => by
    simp only [pySplit]
    split
    · simp
    · split
      · simp
      · simp

/-- Head of a python split after a non-separator character. -/
lemma pySplit_headD_cons (sep c : Char) (l : List Char) (h : ¬ c = sep) :
    (pySplit sep (c :: l)).headD [] = c :: (pySplit sep l).headD [] := by
  have hne := pySplit_ne_nil sep l
  rcases hl : pySplit sep l with - | ⟨piece, rest⟩
  · exact absurd hl hne
  · simp [pySplit, h, hl]

/-- Head of a python split of a separator-free list is the list
itself. -/
lemma pySplit_headD_no_sep (sep : Char) (l : List Char) (h : sep ∉ l) :
    (pySplit sep l).headD [] = l := by
  induction l with
  | nil => rfl
  | cons c cs ih =>
    simp only [List.mem_cons, not_or] at h
    rw [pySplit_headD_cons sep c cs (Ne.symm h.1), ih h.2]

/-- Head of a python split at the first separator occurrence. -/
lemma pySplit_headD_append (sep : Char) (pre post : List Char)
    (h : sep ∉ pre) :
    (pySplit sep (pre ++ sep :: post)).headD [] = pre := by
  induction pre with
  | nil => simp [pySplit]
  | cons c cs ih =>
    simp only [List.mem_cons, not_or] at h
    rw [List.cons_append, pySplit_headD_cons sep c _ (Ne.symm h.1), ih h.2]

/-- C9: the summary the scripts display is exactly the text before the
first newline of the description — a missing description displays as
the empty string, a newline-free description displays whole, and text
after the first newline never influences the summary. -/
theorem summary_uses_first_line (pre post : List Char) (s : String)
    (hpre : '\n' ∉ pre) (hs : '\n' ∉ s.data) :
    summaryLine none = [] ∧
    summaryLine (some (String.mk (pre ++ '\n' :: post))) = pre ∧
    summaryLine (some s) = s.data := by
  refine ⟨rfl, ?_, ?_⟩
  · exact pySplit_headD_append '\n' pre post hpre
  · exact pySplit_headD_no_sep '\n' s.data hs

/-- C9 witness: a two-line description displays as its first line, a
one-line one displays whole, a missing one as empty. -/
theorem summary_uses_first_line_witness :
    summaryLine none = [] ∧
    summaryLine (some (String.mk ("ab".data ++ '\n' :: "cd".data))) =
      "ab".data ∧
    summaryLine (some "xy") = "xy".data :=
  summary_uses_first_line "ab".data "cd".data "xy" (by decide) (by decide)

/-- C10 counterexample: a schema whose single property is a string with
an empty enum list is of sampled type, yet the loop raises IndexError
(`param_schema["enum"][0]`) and produces no mapping at all — so its key
set is not the promised singleton. -/
theorem generate_parameters_empty_enum_counterexample :
    isSampledType { type := some "string", enum := some [], format := none } =
        true ∧
    generateParameters
        [("x", { type := some "string", enum := some [], format := none })] =
      none := by
  exact ⟨rfl, rfl⟩

/-- C10 (amended): provided no string property carries an empty enum
list, the loop produces the mapping whose keys are exactly the
properties of declared type string, integer or boolean — first enum
element for an enum string, `sample_<name>` for other strings, 10 for
integers, true for booleans; all other or missing types are omitted. -/
theorem generate_parameters_samples (props : List (String × ParamSchema))
    (h : ∀ q ∈ props, hasEmptyEnumString q.2 = false) :
    generateParameters props =
      some ((props.filter (fun q => isSampledType q.2)).map
        (fun q => (q.1, claimSample q.1 q.2))) := by
  induction props with
  | nil => rfl
  | cons q rest ih =>
    have hq := h q (List.mem_cons_self q rest)
    have ihr := ih (fun r hr => h r (List.mem_cons_of_mem q hr))
    by_cases hs : q.2.type = some "string"
    · rcases henum : q.2.enum with - | es
      · simp [generateParameters, genParam, hs, henum, isSampledType,
          claimSample, List.filter_cons, ihr]
      · rcases es with - | ⟨v, es'⟩
        · simp [hasEmptyEnumString, hs, henum] at hq
        · simp [generateParameters, genParam, hs, henum, isSampledType,
            claimSample, List.filter_cons, ihr]
    · by_cases hi : q.2.type = some "integer"
      · simp [generateParameters, genParam, hs, hi, isSampledType,
          claimSample, List.filter_cons, ihr]
      · by_cases hb : q.2.type = some "boolean"
        · simp [generateParameters, genParam, hs, hi, hb, isSampledType,
            claimSample, List.filter_cons, ihr]
        · simp [generateParameters, genParam, hs, hi, hb, isSampledType,
            List.filter_cons, ihr]

/-- Property list used by the sample-parameter witness: an enum string,
a plain string, an integer, a boolean, a missing type and an array. -/
def demoProps : List (String × ParamSchema) :=
  [("a", { type := some "string", enum := some [Json.str "e1", Json.str "e2"],
           format := none }),
   ("b", { type := some "string", enum := none, format := none }),
   ("c", { type := some "integer", enum := none, format := none }),
   ("d", { type := some "boolean", enum := none, format := none }),
   ("e", { type := none, enum := none, format := none }),
   ("f", { type := some "array", enum := none, format := none })]

/-- C10 witness: the loop on the demo properties yields exactly the
promised mapping. -/
theorem generate_parameters_samples_witness :
    generateParameters demoProps =
      some ((demoProps.filter (fun q => isSampledType q.2)).map
        (fun q => (q.1, claimSample q.1 q.2))) :=
  generate_parameters_samples demoProps (by decide)

/-- C3: an invocation that omits a required parameter name or supplies a
name outside the tool's properties is answered with a ValidationError,
and no backend request is built or issued. -/
theorem invoke_validation_rejects (baseUrl : String) (t : Tool)
    (args : List (String × Json))
    (h : (∃ r ∈ t.required, ∀ a ∈ args, a.1 ≠ r) ∨
         (∃ a ∈ args, ∀ q ∈ t.properties, q.1 ≠ a.1)) :
    (∃ msg, invoke baseUrl t args = .validationError msg) ∧
    ∀ req, invoke baseUrl t args ≠ .backendCall req := by
  have hval : ∃ msg, invoke baseUrl t args = .validationError msg := by
    rcases h with ⟨r, hr, hnone⟩ | ⟨a, ha, hunk⟩
    · have hmem : r ∈ missingRequired t args := by
        simp only [missingRequired, List.mem_filter, Bool.not_eq_true']
        refine ⟨hr, ?_⟩
        simp only [List.any_eq_false]
        intro a ha
        simp [hnone a ha]
      rcases hm : missingRequired t args with - | ⟨r0, rs⟩
      · rw [hm] at hmem; cases hmem
      · exact ⟨"Missing required parameter: " ++ r0, by simp [invoke, hm]⟩
    · rcases hm : missingRequired t args with - | ⟨r0, rs⟩
      · have hmem : a.1 ∈ unknownNames t args := by
          simp only [unknownNames, List.mem_filter, Bool.not_eq_true']
          refine ⟨List.mem_map_of_mem Prod.fst ha, ?_⟩
          simp only [List.any_eq_false]
          intro q hq
          simp [hunk q hq]
        rcases hu : unknownNames t args with - | ⟨n0, ns⟩
        · rw [hu] at hmem; cases hmem
        · exact ⟨"Unknown parameter: " ++ n0, by simp [invoke, hm, hu]⟩
      · exact ⟨"Missing required parameter: " ++ r0, by simp [invoke, hm]⟩
  refine ⟨hval, ?_⟩
  obtain ⟨msg, hmsg⟩ := hval
  intro req hreq
  rw [hmsg] at hreq
  cases hreq

/-- Tool used by the dispatcher and front-door witnesses: one required
query parameter named limit. -/
def demoTool : Tool :=
  { name := "getUsers"
    description := some "List users"
    properties := [("limit",
      { type := some "integer", enum := none, format := none })]
    required := ["limit"]
    method := "get"
    pathTemplate := "/users"
    locations := [("limit", ParamLocation.query)] }

/-- C3 witness: invoking the demo tool with no parameters is rejected
without a backend request. -/
theorem invoke_validation_rejects_witness :
    (∃ msg, invoke "https://api.example.com" demoTool [] =
      DispatchOutcome.validationError msg) ∧
    ∀ req, invoke "https://api.example.com" demoTool [] ≠
      DispatchOutcome.backendCall req :=
  invoke_validation_rejects "https://api.example.com" demoTool []
    (Or.inl ⟨"limit", by simp [demoTool], by simp⟩)

/-- C4: a run request naming a tool outside the active catalog is
answered with NotFoundError; nothing is dispatched, so no backend
request exists. -/
theorem handle_run_unknown_tool (baseUrl : String) (catalog : List Tool)
    (name : String) (args : List (String × Json))
    (h : ∀ t ∈ catalog, t.name ≠ name) :
    handleRun baseUrl catalog name args = .notFoundError name ∧
    ∀ outcome, handleRun baseUrl catalog name args ≠ .dispatched outcome := by
  have hfind : catalog.find? (fun t => t.name == name) = none := by
    apply List.find?_eq_none.mpr
    intro t ht
    simp [h t ht]
  refine ⟨by simp [handleRun, hfind], ?_⟩
  intro outcome hout
  rw [show handleRun baseUrl catalog name args = .notFoundError name from
    by simp [handleRun, hfind]] at hout
  cases hout

/-- C4 witness: the name doesNotExist is not in a catalog holding only
the demo tool, so the response is NotFoundError. -/
theorem handle_run_unknown_tool_witness :
    handleRun "https://api.example.com" [demoTool] "doesNotExist" [] =
      RunResponse.notFoundError "doesNotExist" :=
  (handle_run_unknown_tool "https://api.example.com" [demoTool]
    "doesNotExist" [] (by intro t ht; simp [demoTool] at ht; simp [ht, demoTool])).1

/-- Every required name of an operation is one of its property keys: a
name is required either as a declared parameter (which contributes a
property) or as a body property named in the body required list. -/
lemma opRequired_subset (op : Operation) :
    opRequired op ⊆ (opProperties op).map Prod.fst := by
  intro x hx
  simp only [opRequired, List.mem_append, List.mem_filterMap] at hx
  simp only [opProperties, List.map_append, List.mem_append, List.map_map,
    List.mem_map, Function.comp]
  rcases hx with ⟨p, hp, hpx⟩ | hbody
  · left
    refine ⟨p, hp, ?_⟩
    by_cases hr : p.required
    · simp only [hr, if_true, Option.some.injEq] at hpx
      exact hpx
    · simp [hr] at hpx
  · rcases hrb : op.requestBody with - | rb
    · rw [hrb] at hbody
      simp at hbody
    · rw [hrb] at hbody
      simp only [List.mem_filterMap] at hbody
      obtain ⟨q, hq, hqx⟩ := hbody
      right
      by_cases hin : q.1 ∈ rb.required
      · simp only [hin, if_pos, Option.some.injEq] at hqx
        subst hqx
        exact ⟨q, hq, rfl⟩
      · simp [hin] at hqx

/-- assignNames produces one tool per operation. -/
lemma assignNames_length (ops : List (String × String × Operation)) :
    ∀ used, (assignNames used ops).length = ops.length := by
  induction ops with
  | nil => intro used; rfl
  | cons v rest ih =>
    intro used
    obtain ⟨p, m, op⟩ := v
    simp [assignNames, ih]

/-- Every tool produced by assignNames is built from one of the listed
operations. -/
lemma assignNames_mem (ops : List (String × String × Operation)) :
    ∀ used t, t ∈ assignNames used ops →
      ∃ nm p m op, (p, m, op) ∈ ops ∧ t = buildTool nm p m op := by
  induction ops with
  | nil => intro used t ht; simp [assignNames] at ht
  | cons v rest ih =>
    intro used t ht
    obtain ⟨p, m, op⟩ := v
    simp only [assignNames, List.mem_cons] at ht
    rcases ht with rfl | ht
    · exact ⟨_, p, m, op, List.mem_cons_self _ _, rfl⟩
    · obtain ⟨nm, p', m', op', hmem, rfl⟩ := ih _ t ht
      exact ⟨nm, p', m', op', List.mem_cons_of_mem _ hmem, rfl⟩

/-- C1: the extractor produces exactly one tool per valid operation of
the document, and every produced tool's required names form a subset of
its property keys. -/
theorem extract_tools_invariant (d : OpenApiDocument) :
    (extract_tools d).length = (validOps d).length ∧
    ∀ t ∈ extract_tools d, t.required ⊆ t.properties.map Prod.fst := by
  constructor
  · exact assignNames_length (validOps d) []
  · intro t ht
    obtain ⟨nm, p, m, op, -, rfl⟩ := assignNames_mem (validOps d) [] t ht
    simpa [buildTool] using opRequired_subset op

/-- The one tool the demo document extracts. -/
def demoTool0 : Tool :=
  buildTool "getUsers" "/users" "get"
    { operationId := some "getUsers"
      description := some "List users\nSecond line."
      parameters :=
        [{ name := "limit"
           loc := ParamLocation.query
           required := false
           schema := { type := some "integer", enum := none, format := none } }]
      requestBody := none }

/-- C1 witness: on the demo document the catalog holds one tool per
valid operation and that tool's required names sit inside its property
keys. -/
theorem extract_tools_invariant_witness :
    (extract_tools demoParsedDoc).length = (validOps demoParsedDoc).length ∧
    demoTool0.required ⊆ demoTool0.properties.map Prod.fst := by
  refine ⟨(extract_tools_invariant demoParsedDoc).1, ?_⟩
  refine (extract_tools_invariant demoParsedDoc).2 demoTool0 ?_
  show demoTool0 ∈ extract_tools demoParsedDoc
  rw [show extract_tools demoParsedDoc = [demoTool0] from rfl]
  exact List.mem_singleton.mpr rfl

/-- Decimal digit characters decode back to their digit. -/
lemma digitChar_toNat_of_lt {d : Nat} (h : d < 10) :
    (Nat.digitChar d).toNat = 48 + d := by
  interval_cases d <;> rfl

/-- Mapping digits below ten to their characters is injective. -/
lemma map_digitChar_inj {l1 l2 : List Nat}
    (h1 : ∀ d ∈ l1, d < 10) (h2 : ∀ d ∈ l2, d < 10)
    (h : l1.map Nat.digitChar = l2.map Nat.digitChar) : l1 = l2 := by
  induction l1 generalizing l2 with
  | nil =>
    cases l2 with
    | nil => rfl
    | cons b bs => simp at h
  | cons a as ih =>
    cases l2 with
    | nil => simp at h
    | cons b bs =>
      simp only [List.map_cons, List.cons.injEq] at h
      have ha := h1 a (List.mem_cons_self a as)
      have hb := h2 b (List.mem_cons_self b bs)
      have hab : a = b := by
        have hc := congrArg Char.toNat h.1
        rw [digitChar_toNat_of_lt ha, digitChar_toNat_of_lt hb] at hc
        omega
      subst hab
      rw [ih (fun d hd => h1 d (List.mem_cons_of_mem a hd))
        (fun d hd => h2 d (List.mem_cons_of_mem a hd)) h.2]

/-- The decimal suffix rendering is injective. -/
lemma natSuffix_injective : Function.Injective natSuffix := by
  intro a b h
  have hdata : ((Nat.digits 10 a).reverse).map Nat.digitChar =
      ((Nat.digits 10 b).reverse).map Nat.digitChar := congrArg String.data h
  have hrev : (Nat.digits 10 a).reverse = (Nat.digits 10 b).reverse :=
    map_digitChar_inj
      (fun d hd => Nat.digits_lt_base (by norm_num) (List.mem_reverse.mp hd))
      (fun d hd => Nat.digits_lt_base (by norm_num) (List.mem_reverse.mp hd))
      hdata
  exact Nat.digits_inj_iff.mp (List.reverse_injective hrev)

/-- Appending to a fixed string is injective. -/
lemma string_append_left_cancel {base s1 s2 : String}
    (h : base ++ s1 = base ++ s2) : s1 = s2 := by
  apply String.ext
  have hd := congrArg String.data h
  simp only [String.data_append] at hd
  exact List.append_cancel_left hd

/-- The suffix search returns a fresh name as soon as a fresh candidate
exists within the fuel window. -/
lemma freshSuffix_not_mem (used : List String) (base : String) :
    ∀ fuel k, (∃ j, j ≤ fuel ∧ base ++ natSuffix (k + j) ∉ used) →
      freshSuffix used base fuel k ∉ used := by
  intro fuel
  induction fuel with
  | zero =>
    rintro k ⟨j, hj, hfree⟩
    obtain rfl : j = 0 := Nat.le_zero.mp hj
    simpa [freshSuffix] using hfree
  | succ fuel ih =>
    rintro k ⟨j, hj, hfree⟩
    by_cases hk : base ++ natSuffix k ∈ used
    · have hj0 : j ≠ 0 := by
        rintro rfl
        simp only [Nat.add_zero] at hfree
        exact hfree hk
      obtain ⟨j', rfl⟩ : ∃ j', j = j' + 1 := ⟨j - 1, by omega⟩
      have hstep : freshSuffix used base (fuel + 1) k =
          freshSuffix used base fuel (k + 1) := by
        simp [freshSuffix, hk]
      rw [hstep]
      refine ih (k + 1) ⟨j', by omega, ?_⟩
      rw [show k + 1 + j' = k + (j' + 1) by omega]
      exact hfree
    · intro hmem
      rw [freshSuffix] at hmem
      rw [if_neg hk] at hmem
      exact hk hmem

/-- Pigeonhole: among the first `used.length + 1` numeric suffixes of a
base there is one whose suffixed name is not used. -/
lemma exists_fresh (used : List String) (base : String) :
    ∃ j, j ≤ used.length ∧ base ++ natSuffix (1 + j) ∉ used := by
  by_contra hc
  push_neg at hc
  have hinj : Set.InjOn (fun j : Nat => base ++ natSuffix (1 + j))
      (Finset.range (used.length + 1)) := by
    rintro x - y - hxy
    have := natSuffix_injective (string_append_left_cancel hxy)
    omega
  have hmaps : ∀ j ∈ Finset.range (used.length + 1),
      (fun j : Nat => base ++ natSuffix (1 + j)) j ∈ used.toFinset := by
    intro j hj
    simp only [Finset.mem_range] at hj
    exact List.mem_toFinset.mpr (hc j (by omega))
  have hcard := Finset.card_le_card_of_injOn _ hmaps hinj
  simp only [Finset.card_range] at hcard
  have hlen := used.toFinset_card_le
  omega

/-- The resolved name never collides with an already-used name. -/
lemma freshName_not_mem (used : List String) (base : String) :
    freshName used base ∉ used := by
  unfold freshName
  by_cases hb : base ∈ used
  · simp only [hb, if_true]
    obtain ⟨j, hj, hfree⟩ := exists_fresh used base
    exact freshSuffix_not_mem used base used.length 1 ⟨j, hj, hfree⟩
  · rw [if_neg hb]
    exact hb

/-- Names produced by assignNames are pairwise distinct and avoid every
already-used name. -/
lemma assignNames_nodup (ops : List (String × String × Operation)) :
    ∀ used, ((assignNames used ops).map Tool.name).Nodup ∧
      ∀ x ∈ (assignNames used ops).map Tool.name, x ∉ used := by
  induction ops with
  | nil => intro used; simp [assignNames]
  | cons v rest ih =>
    intro used
    obtain ⟨p, m, op⟩ := v
    obtain ⟨hnodup, hdisj⟩ := ih (freshName used (baseName p m op) :: used)
    have hfresh := freshName_not_mem used (baseName p m op)
    simp only [assignNames, List.map_cons]
    constructor
    · refine List.nodup_cons.mpr ⟨?_, hnodup⟩
      intro hmem
      exact (hdisj _ hmem) (List.mem_cons_self _ _)
    · intro x hx
      rcases List.mem_cons.mp hx with rfl | hx'
      · exact hfresh
      · intro hxu
        exact (hdisj x hx') (List.mem_cons_of_mem _ hxu)
  
/-- The catalog order follows the flattened path-then-method order of
the valid operations. -/
lemma assignNames_binding (ops : List (String × String × Operation)) :
    ∀ used, (assignNames used ops).map (fun t => (t.pathTemplate, t.method)) =
      ops.map (fun v => (v.1, v.2.1)) := by
  induction ops with
  | nil => intro used; rfl
  | cons v rest ih =>
    intro used
    obtain ⟨p, m, op⟩ := v
    simp [assignNames, buildTool, ih]

/-- C5: within one extraction pass the tool names are pairwise
distinct, the catalog follows the path-then-method declaration order of
the document (so the output is a deterministic function of the
document), a base name not yet taken is kept unsuffixed (first-seen
wins), and a colliding base receives a suffixed name distinct from
every name already assigned. -/
theorem extract_tools_names_unique (d : OpenApiDocument) :
    ((extract_tools d).map Tool.name).Nodup ∧
    ((extract_tools d).map (fun t => (t.pathTemplate, t.method)) =
      (validOps d).map (fun v => (v.1, v.2.1))) ∧
    (∀ used base, base ∉ used → freshName used base = base) ∧
    (∀ used base, freshName used base ∉ used) := by
  refine ⟨(assignNames_nodup (validOps d) []).1,
    assignNames_binding (validOps d) [], ?_, freshName_not_mem⟩
  intro used base hb
  simp [freshName, hb]

/-- A document with two operations carrying the same explicit
identifier, to exercise collision handling. -/
def demoCollideDoc : OpenApiDocument :=
  { paths := [("/a",
      [("get", OpEntry.ok
        { operationId := some "dup", description := none,
          parameters := [], requestBody := none }),
       ("post", OpEntry.ok
        { operationId := some "dup", description := none,
          parameters := [], requestBody := none })])]
    serverUrl := "" }

/-- C5 witness: colliding identifiers still yield pairwise-distinct
names, a free base stays unsuffixed and a taken base is resolved away
from the taken set. -/
theorem extract_tools_names_unique_witness :
    ((extract_tools demoCollideDoc).map Tool.name).Nodup ∧
    freshName [] "getUsers" = "getUsers" ∧
    freshName ["dup"] "dup" ∉ ["dup"] :=
  ⟨(extract_tools_names_unique demoCollideDoc).1,
   (extract_tools_names_unique demoCollideDoc).2.2.1 [] "getUsers" (by decide),
   (extract_tools_names_unique demoCollideDoc).2.2.2 ["dup"] "dup"⟩

/-- Invariant of the Token Manager system: before any request none has
been issued and everyone is idle; during the single in-flight refresh
exactly one request has been issued and nobody is finished; after it
completes exactly one request was ever issued and every finished caller
holds the token of request 0. -/
def TMInv {n : Nat} (s : TMState n) : Prop :=
  (s.valid = false ∧ s.inFlight = false ∧ s.requests = 0 ∧ s.cached = none ∧
     (∀ i, s.phase i = CallerPhase.idle) ∧ (∀ i, s.result i = none)) ∨
  (s.valid = false ∧ s.inFlight = true ∧ s.requests = 1 ∧ s.cached = none ∧
     (∀ i, s.phase i ≠ CallerPhase.done) ∧ (∀ i, s.result i = none)) ∨
  (s.valid = true ∧ s.inFlight = false ∧ s.requests = 1 ∧
     s.cached = some 0 ∧
     (∀ i, s.phase i ≠ CallerPhase.waiting) ∧
     (∀ i, s.phase i = CallerPhase.done → s.result i = some 0) ∧
     (∀ i, s.phase i ≠ CallerPhase.done → s.result i = none))

/-- Every step of the Token Manager system preserves the invariant. -/
lemma tmInv_step {n : Nat} {s t : TMState n} (hs : TMInv s)
    (hst : TMStep n s t) : TMInv t := by
  cases hst with
  | hit i g hidle hvalid hcached =>
    rcases hs with ⟨h1, -⟩ | ⟨h1, -⟩ | ⟨h1, h2, h3, h4, h5, h6, h7⟩
    · rw [h1] at hvalid; cases hvalid
    · rw [h1] at hvalid; cases hvalid
    · right; right
      have hg : g = 0 := by
        rw [h4] at hcached
        exact (Option.some.injEq _ _ ▸ hcached).symm
      refine ⟨h1, h2, h3, h4, ?_, ?_, ?_⟩
      · intro j
        by_cases hij : j = i
        · subst hij
          simp [Function.update_same]
        · simp only [Function.update_noteq hij]
          exact h5 j
      · intro j hj
        by_cases hij : j = i
        · subst hij
          simp [Function.update_same, hg]
        · simp only [Function.update_noteq hij]
          simp only [Function.update_noteq hij] at hj
          exact h6 j hj
      · intro j hj
        by_cases hij : j = i
        · subst hij
          simp [Function.update_same] at hj
        · simp only [Function.update_noteq hij]
          simp only [Function.update_noteq hij] at hj
          exact h7 j hj
  | start i hidle hvalid hflight =>
    rcases hs with ⟨h1, h2, h3, h4, h5, h6⟩ | ⟨h1, h2, -⟩ | ⟨h1, -⟩
    · right; left
      refine ⟨h1, rfl, by simp [h3], h4, ?_, h6⟩
      intro j
      by_cases hij : j = i
      · subst hij
        simp [Function.update_same]
      · simp only [Function.update_noteq hij, h5 j]
        simp
    · rw [h2] at hflight; cases hflight
    · rw [h1] at hvalid; cases hvalid
  | join i hidle hvalid hflight =>
    rcases hs with ⟨h1, h2, -⟩ | ⟨h1, h2, h3, h4, h5, h6⟩ | ⟨h1, -⟩
    · rw [h2] at hflight; cases hflight
    · right; left
      refine ⟨h1, h2, h3, h4, ?_, h6⟩
      intro j
      by_cases hij : j = i
      · subst hij
        simp [Function.update_same]
      · simp only [Function.update_noteq hij]
        exact h5 j
    · rw [h1] at hvalid; cases hvalid
  | finish hflight =>
    rcases hs with ⟨h1, h2, -⟩ | ⟨h1, h2, h3, h4, h5, h6⟩ | ⟨h1, h2, -⟩
    · rw [h2] at hflight; cases hflight
    · right; right
      refine ⟨rfl, rfl, by simp [h3], by simp [h3], ?_, ?_, ?_⟩
      · intro j
        by_cases hw : s.phase j = CallerPhase.waiting
        · simp [hw]
        · simp only [hw, if_false]
          exact hw
      · intro j hj
        by_cases hw : s.phase j = CallerPhase.waiting
        · simp [hw, h3]
        · simp only [hw, if_false] at hj
          exact absurd hj (h5 j)
      · intro j hj
        by_cases hw : s.phase j = CallerPhase.waiting
        · simp only [hw, if_true] at hj
          cases hj rfl
        · simp only [hw, if_false]
          exact h6 j
    · rw [h2] at hflight; cases hflight

/-- Every reachable state of the Token Manager system satisfies the
invariant. -/
lemma tmInv_reachable {n : Nat} {s : TMState n} (h : TMReachable n s) :
    TMInv s := by
  induction h with
  | init => exact Or.inl ⟨rfl, rfl, rfl, rfl, fun i => rfl, fun i => rfl⟩
  | step hr hst ih => exact tmInv_step ih hst

/-- C2: in every reachable state of the Token Manager at most one token
request has been issued and an in-flight refresh is the only request
issued, so refreshes are never duplicated; when every concurrent caller
has finished, exactly one token request was ever issued and every
caller received the token produced by that single request. -/
theorem token_manager_single_flight (n : Nat) (s : TMState n)
    (hr : TMReachable n s) :
    s.requests ≤ 1 ∧
    (s.inFlight = true → s.requests = 1) ∧
    ((∀ i, s.phase i = CallerPhase.done) → 0 < n →
      s.requests = 1 ∧ ∀ i, s.result i = some 0) := by
  have hinv := tmInv_reachable hr
  rcases hinv with ⟨h1, h2, h3, h4, h5, h6⟩ | ⟨h1, h2, h3, h4, h5, h6⟩ |
    ⟨h1, h2, h3, h4, h5, h6, h7⟩
  · refine ⟨by omega, ?_, ?_⟩
    · intro hf
      rw [h2] at hf
      cases hf
    · intro hdone hn
      have hd := hdone ⟨0, hn⟩
      rw [h5 ⟨0, hn⟩] at hd
      cases hd
  · refine ⟨by omega, fun _ => h3, ?_⟩
    intro hdone hn
    exact absurd (hdone ⟨0, hn⟩) (h5 ⟨0, hn⟩)
  · refine ⟨by omega, ?_, ?_⟩
    · intro hf
      rw [h2] at hf
      cases hf
    · intro hdone hn
      exact ⟨h3, fun i => h6 i (hdone i)⟩

/-- Intermediate state of the single-flight witness run: caller 0 has
issued the one refresh request and is waiting. -/
def tmS1 : TMState 1 :=
  { TMInit 1 with
    inFlight := true
    requests := (TMInit 1).requests + 1
    phase := Function.update (TMInit 1).phase 0 CallerPhase.waiting }

/-- Final state of the single-flight witness run: the refresh finished
and the waiting caller received the token. -/
def tmS2 : TMState 1 :=
  { tmS1 with
    inFlight := false
    valid := true
    cached := some (tmS1.requests - 1)
    phase := fun j =>
      if tmS1.phase j = CallerPhase.waiting then CallerPhase.done
      else tmS1.phase j
    result := fun j =>
      if tmS1.phase j = CallerPhase.waiting then some (tmS1.requests - 1)
      else tmS1.result j }

/-- C2 witness: a concrete run with one caller reaches the all-done
state having issued exactly one token request, whose result the caller
holds. -/
theorem token_manager_single_flight_witness :
    tmS2.requests = 1 ∧ tmS2.result 0 = some 0 := by
  have h1 : TMStep 1 (TMInit 1) tmS1 := TMStep.start (TMInit 1) 0 rfl rfl rfl
  have h2 : TMStep 1 tmS1 tmS2 := TMStep.finish tmS1 rfl
  have hr : TMReachable 1 tmS2 :=
    TMReachable.step (TMReachable.step TMReachable.init h1) h2
  have hall : ∀ i : Fin 1, tmS2.phase i = CallerPhase.done := by
    intro i
    fin_cases i
    simp [tmS2, tmS1, TMInit, Function.update]
  have hmain := (token_manager_single_flight 1 tmS2 hr).2.2 hall (by omega)
  exact ⟨hmain.1, hmain.2 0⟩
